import Mathlib

/-!
Verification of the oracle CLI session store, file handling, cookie
normalization and provider-capability code against its specification.
Each definition is a shallow embedding of the correspondingly named
function from the TypeScript sources; filesystem reads and clocks are
passed in explicitly as data.
-/

namespace Oracle

/-! ### Cookie expiration normalization (src/unnamed/part_016, normalizeExpiration) -/

/-- JavaScript Math.round: floor of x + 1/2 (round half toward positive infinity). -/
def jsRound (q : ℚ) : ℤ := ⌊q + 1 / 2⌋

/-- Embeds normalizeExpiration.  The input is the numeric expires field of a
native cookie, or none when absent; NaN is not modelled.  The source first
returns undefined when the value is falsy, then when it is non-positive, then
branches on two magnitude thresholds. -/
def normalizeExpiration (expires : Option ℚ) : Option ℤ :=
  match expires with
  | none => none
  | some value =>
    if value = 0 then none
    else if value ≤ 0 then none
    else if value > 1000000000000 then some (jsRound (value / 1000000 - 11644473600))
    else if value > 1000000000 then some (jsRound (value / 1000))
    else some (jsRound value)

/-! ### Markdown fence picking (src/unnamed/part_013, pickFence) -/

/-- The backtick character, written by code point to keep sources plain. -/
def btick : Char := Char.ofNat 96

/-- Length of the leading run of backticks of a character list. -/
def leadTicks : List Char → Nat
  | [] => 0
  | c :: t => if c = btick then leadTicks t + 1 else 0

/-- Length of the longest run of consecutive backticks in a character list;
this is the reduce-over-regex-matches computation of pickFence. -/
def maxTickRun : List Char → Nat
  | [] => 0
  | c :: t => if c = btick then max (leadTicks t + 1) (maxTickRun t) else maxTickRun t

/-- Embeds pickFence: a run of backticks of length max 3 (maxTicks + 1),
returned as a character list (the source returns the string). -/
def pickFence (content : List Char) : List Char :=
  List.replicate (max 3 (maxTickRun content + 1)) btick

/-! ### Capability registry and Anthropic adapter (src/src/oracle/tools.ts, anthropic.ts) -/

structure ToolSupport where
  search : Bool
deriving DecidableEq

/-- Embeds toolSupportForModel: search is unsupported exactly for model names
starting with the Anthropic family marker (the startsWith check of the
source, taken on the character sequences). -/
def toolSupportForModel (model : String) : ToolSupport :=
  if "claude".data.isPrefixOf model.data then { search := false } else { search := true }

/-- A content piece of an input turn; the text field is absent when the piece
has no text member. -/
structure ContentPiece where
  text : Option String
deriving DecidableEq

structure InputItem where
  content : List ContentPiece
deriving DecidableEq

/-- The provider-agnostic request body, restricted to the fields the Anthropic
adapter reads plus the tools list it deliberately ignores. -/
structure OracleRequestBody where
  input : List InputItem
  instructions : Option String
  max_output_tokens : Option Nat
  tools : Option (List String)
deriving DecidableEq

structure AnthropicMessage where
  role : String
  contentText : String
deriving DecidableEq

/-- The native Anthropic call parameters; tools is an optional field of the
native shape that buildAnthropicParams never assigns. -/
structure MessageCreateParams where
  model : String
  max_tokens : Nat
  messages : List AnthropicMessage
  system : Option String
  tools : Option (List String)
deriving DecidableEq

def defaultMaxOutputTokens : Nat := 1024

/-- Embeds the user-text flattening of buildAnthropicParams: every text part
of every input turn, empty strings filtered out, joined by blank lines. -/
def flattenUserText (input : List InputItem) : String :=
  String.intercalate "\n\n"
    ((input.flatMap fun item =>
      (item.content.map fun piece => (piece.text.getD "")).filter fun s => ¬ s.isEmpty))

/-- Embeds buildAnthropicParams.  The source constructs the params literal
without a tools field (a code comment records that tools are intentionally
ignored), so the optional native field stays unassigned. -/
def buildAnthropicParams (body : OracleRequestBody) (model : String) : MessageCreateParams :=
  { model := model
    max_tokens := body.max_output_tokens.getD defaultMaxOutputTokens
    messages := [{ role := "user", contentText := flattenUserText body.input }]
    system :=
      match body.instructions with
      | some s => if (s.trim.length > 0) then some s else none
      | none => none
    tools := none }

/-! ### Slug generation (src/scripts/test-chatgpt-url-access.ts, slugify and friends) -/

def DEFAULT_SLUG : String := "session"
def MAX_SLUG_WORDS : Nat := 5
def MIN_CUSTOM_SLUG_WORDS : Nat := 3
def MAX_SLUG_WORD_LENGTH : Nat := 10

/-- A character matched by the word regex of slugify, which runs on the
lower-cased prompt: an ASCII lower-case letter or digit. -/
def isSlugChar (c : Char) : Bool :=
  (('a' ≤ c ∧ c ≤ 'z') ∨ ('0' ≤ c ∧ c ≤ '9') : Bool)

/-- Linear scan collecting maximal runs of slug characters; acc holds the
current run in reverse. -/
def runsGo : List Char → List Char → List (List Char)
  | [], acc => if acc.isEmpty then [] else [acc.reverse]
  | c :: t, acc =>
    if isSlugChar c then runsGo t (c :: acc)
    else if acc.isEmpty then runsGo t [] else acc.reverse :: runsGo t []

/-- Maximal runs of slug characters, embedding the global regex match of
slugify over the lower-cased character sequence. -/
def alnumRuns (l : List Char) : List (List Char) :=
  runsGo l []

/-- The hyphen join of the word list, as the JavaScript join does it. -/
def joinWords : List (List Char) → List Char
  | [] => []
  | [w] => w
  | w :: ws => w ++ '-' :: joinWords ws

/-- Embeds slugify: lower-case, extract alphanumeric words, keep at most
maxWords, truncate each to MAX_SLUG_WORD_LENGTH characters, join with
hyphens, falling back to the literal DEFAULT_SLUG. -/
def slugify (text : String) (maxWords : Nat := MAX_SLUG_WORDS) : String :=
  let words := alnumRuns (text.data.map Char.toLower)
  let trimmed := (words.take maxWords).map fun w => w.take MAX_SLUG_WORD_LENGTH
  if trimmed.length > 0 then String.mk (joinWords trimmed)
  else DEFAULT_SLUG

/-- Split on hyphens keeping empty pieces, as the JavaScript split does. -/
def hyphenSplit : List Char → List (List Char)
  | [] => [[]]
  | c :: t =>
    match hyphenSplit t with
    | [] => [[c]]
    | h :: r => if c = '-' then [] :: h :: r else (c :: h) :: r

/-- Embeds countSlugWords: split on hyphens, drop empty pieces, count. -/
def countSlugWords (slug : String) : Nat :=
  ((hyphenSplit slug.toList).filter fun w => w ≠ []).length

def invalidSlugMessage : String :=
  "Custom slug must include between 3 and 5 words."

/-- Embeds normalizeCustomSlug; the source throws when the word count of the
normalized slug is out of bounds. -/
def normalizeCustomSlug (candidate : String) : Except String String :=
  let slug := slugify candidate MAX_SLUG_WORDS
  let wordCount := countSlugWords slug
  if wordCount < MIN_CUSTOM_SLUG_WORDS ∨ wordCount > MAX_SLUG_WORDS then
    Except.error invalidSlugMessage
  else Except.ok slug

/-- Embeds createSessionId: a truthy (non-empty) custom slug is normalized
and validated, otherwise the prompt is slugified. -/
def createSessionId (prompt : String) (customSlug : Option String) : Except String String :=
  match customSlug with
  | some c => if c.isEmpty then Except.ok (slugify prompt) else normalizeCustomSlug c
  | none => Except.ok (slugify prompt)

/-! ### Unique session ids (src/scripts/test-chatgpt-url-access.ts, ensureUniqueSessionId) -/

/-- The candidate directory name for a numeric suffix, as the template
literal base-dash-suffix builds it. -/
def candidateName (base : String) (suffix : Nat) : String :=
  base ++ "-" ++ Nat.repr suffix

/-- The while loop of ensureUniqueSessionId: probe the current candidate,
move to the next suffixed candidate while the probe finds an existing
directory.  existing lists the session directories present on disk; the fuel
argument is bounded below by the probe count, which the pigeonhole argument in
the lemmas shows never reaches existing.length + 2. -/
def uniqueLoop (existing : List String) (base : String) :
    String → Nat → Nat → String
  | candidate, _, 0 => candidate
  | candidate, suffix, fuel + 1 =>
    if candidate ∈ existing then
      uniqueLoop existing base (candidateName base suffix) (suffix + 1) fuel
    else candidate

/-- Embeds ensureUniqueSessionId over the set of directories that exist. -/
def ensureUniqueSessionId (existing : List String) (base : String) : String :=
  uniqueLoop existing base base 2 (existing.length + 2)

/-- Numeric value of a decimal digit character, for reading back Nat.repr. -/
def digitVal (c : Char) : Nat := c.toNat - '0'.toNat

/-- Reads a decimal digit string back to a number. -/
def parseDigits (l : List Char) : Nat :=
  l.foldl (fun a c => 10 * a + digitVal c) 0

/-- Reference form of the decimal digits of a number, most significant first. -/
def specDigits (n : Nat) : List Char :=
  if n < 10 then [Nat.digitChar n]
  else specDigits (n / 10) ++ [Nat.digitChar (n % 10)]
decreasing_by exact Nat.div_lt_self (by omega) (by omega)

/-! ### Session metadata, zombie marking, metadata upsert
(src/scripts/test-chatgpt-url-access.ts, markZombie / isZombie /
updateSessionMetadata / listSessionsMetadata) -/

def ZOMBIE_MAX_AGE_MS : Int := 60 * 60 * 1000

def zombieMessage : String := "Session marked as zombie (>60m stale)"

/-- The stored session metadata record, restricted to the fields the zombie
check and the update merge read or write.  Timestamps stay in their stored
string form; parsing them is the Date.parse argument below. -/
structure SessionMeta where
  id : String
  createdAt : Option String
  startedAt : Option String
  completedAt : Option String
  status : Option String
  errorMessage : Option String
  promptPreview : Option String
deriving DecidableEq

/-- Embeds isZombie.  parse stands for Date.parse, returning none when the
stored string does not parse (NaN); now stands for Date.now in milliseconds.
The nullish-coalescing reference keeps an empty startedAt string, which the
falsy check then rejects. -/
def isZombie (parse : String → Option Int) (now : Int) (meta : SessionMeta) : Bool :=
  if meta.status ≠ some "running" then false
  else
    match meta.startedAt.orElse fun _ => meta.createdAt with
    | none => false
    | some reference =>
      if reference.isEmpty then false
      else
        match parse reference with
        | none => false
        | some startedMs => now - startedMs > ZOMBIE_MAX_AGE_MS

/-- Embeds markZombie.  The first component is the record handed back to the
caller; the second is the record written to the metadata file, when any write
happens at all.  nowIso stands for the ISO rendering of the current time. -/
def markZombie (parse : String → Option Int) (now : Int) (nowIso : String)
    (persist : Bool) (meta : SessionMeta) : SessionMeta × Option SessionMeta :=
  if ¬ isZombie parse now meta then (meta, none)
  else
    let updated : SessionMeta :=
      { meta with
        status := some "error"
        errorMessage := some zombieMessage
        completedAt := some nowIso }
    (updated, if persist then some updated else none)

/-- The read path: readModern/readLegacy both return the stored record through
markZombie with persist off (model-run attachment is orthogonal to the fields
modelled here). -/
def readSessionResult (parse : String → Option Int) (now : Int) (nowIso : String)
    (stored : SessionMeta) : SessionMeta :=
  (markZombie parse now nowIso false stored).1

/-- One entry of listSessionsMetadata: the record obtained from
readSessionMetadata is passed through markZombie again with persist on.
Returns the listed record and the metadata write that second call performs. -/
def listSessionEntry (parse : String → Option Int) (now : Int) (nowIso : String)
    (stored : SessionMeta) : SessionMeta × Option SessionMeta :=
  markZombie parse now nowIso true (readSessionResult parse now nowIso stored)

/-- A partial metadata update: an outer some means the key is present on the
literal that the caller spreads over the existing record, and its payload is
the new stored value (itself optional for the optional fields). -/
structure SessionMetaPatch where
  id : Option String
  createdAt : Option (Option String)
  startedAt : Option (Option String)
  completedAt : Option (Option String)
  status : Option (Option String)
  errorMessage : Option (Option String)
  promptPreview : Option (Option String)
deriving DecidableEq

/-- The spread of a partial update over an existing record: fields present on
the update override, all others are kept. -/
def applyPatch (meta : SessionMeta) (patch : SessionMetaPatch) : SessionMeta :=
  { id := (patch.id).getD meta.id
    createdAt := (patch.createdAt).getD meta.createdAt
    startedAt := (patch.startedAt).getD meta.startedAt
    completedAt := (patch.completedAt).getD meta.completedAt
    status := (patch.status).getD meta.status
    errorMessage := (patch.errorMessage).getD meta.errorMessage
    promptPreview := (patch.promptPreview).getD meta.promptPreview }

/-- The record with only the id field, the fallback literal of
updateSessionMetadata. -/
def emptyMeta (sessionId : String) : SessionMeta :=
  { id := sessionId
    createdAt := none
    startedAt := none
    completedAt := none
    status := none
    errorMessage := none
    promptPreview := none }

/-- Embeds updateSessionMetadata.  modern and legacy are the results of the
two fallback reads (none when the respective file is missing or unreadable);
the function merges the update over whichever exists, falling back to the
bare id record, writes the merge, and returns it.  The pair is the written
record and the returned record. -/
def updateSessionMetadata (modern legacy : Option SessionMeta) (sessionId : String)
    (patch : SessionMetaPatch) : SessionMeta × SessionMeta :=
  let existing := (modern.orElse fun _ => legacy).getD (emptyMeta sessionId)
  let next := applyPatch existing patch
  (next, next)

/-! ### Combined session log (src/scripts/test-chatgpt-url-access.ts, readSessionLog) -/

/-- One per-model run record as listModelRunFiles yields it, with the content
of its log file read alongside (a failed read yields the empty body). -/
structure ModelRun where
  model : String
  startedAt : Option String
  logBody : String
deriving DecidableEq

/-- Embeds the sort comparator of readSessionLog: compare start times when
both records carry a truthy one, otherwise compare model names.  String
comparison models localeCompare as code-unit order. -/
def cmpRun (a b : ModelRun) : Ordering :=
  match a.startedAt, b.startedAt with
  | some sa, some sb =>
    if sa.isEmpty ∨ sb.isEmpty then compare a.model b.model else compare sa sb
  | _, _ => compare a.model b.model

/-- The sort keeps a before b when the comparator does not order b strictly
first; a stable sort under this relation models Array.prototype.sort. -/
def leRun (a b : ModelRun) : Prop := cmpRun a b ≠ Ordering.gt

/-- Whether a record carries a truthy start time (the guard of the
comparator). -/
def hasStart (r : ModelRun) : Bool :=
  match r.startedAt with
  | some s => ¬ s.isEmpty
  | none => false

/-- The start-time sort key of a record that has one. -/
def startKey (r : ModelRun) : String := r.startedAt.getD ""

instance : DecidableRel leRun := fun a b => by
  unfold leRun; exact inferInstance

/-- Right-trim of a character sequence, the trimEnd of the source. -/
def trimRightList (l : List Char) : List Char :=
  (l.reverse.dropWhile Char.isWhitespace).reverse

/-- One combined-log section: header line plus body, right-trimmed. -/
def sectionOf (r : ModelRun) : String :=
  String.mk (trimRightList ("=== " ++ r.model ++ " ===\n" ++ r.logBody).data)

/-- Embeds readSessionLog.  runs are the records found under the models
directory in listing order; legacy is the content of the single legacy log
file, none when unreadable.  The source returns the legacy content when there
are no per-model records, sorts the records with the comparator above, builds
one header section per record, and falls back to the legacy content when no
per-model log had content. -/
def readSessionLog (runs : List ModelRun) (legacy : Option String) : String :=
  if runs.isEmpty then legacy.getD ""
  else
    let ordered := List.insertionSort leRun runs
    let sections := ordered.map sectionOf
    let hasContent := ordered.any fun r => ¬ r.logBody.isEmpty
    if ¬ hasContent ∧ legacy.isSome then legacy.getD ""
    else String.intercalate "\n\n" sections

/-! ### File discovery and the size limit (src/unnamed/part_010, readFiles) -/

def MAX_FILE_SIZE_BYTES : Nat := 1 * 1024 * 1024

/-- What fs.stat reports about a path, restricted to what readFiles reads. -/
structure FStat where
  isFile : Bool
  isDirectory : Bool
  size : Nat
deriving DecidableEq

/-- The error taxonomy of readFiles; all but the unsupported-pattern case are
FileValidationError values in the source. -/
inductive FileError where
  | missing (path : String)
  | notFileOrDirectory (path : String)
  | noMatch (globPatterns excludePatterns : List String)
  | oversize (message : String) (files : List String) (limitBytes : Nat)
deriving DecidableEq

structure FileContent where
  path : String
  content : String
deriving DecidableEq

/-- Rounds n / d to one decimal digit, half away from zero on the halves that
occur here, returning the two components. -/
def fixedOneDigit (n d : Nat) : Nat × Nat :=
  let tenths := (n * 10 + d / 2) / d
  (tenths / 10, tenths % 10)

/-- Embeds formatBytes: megabytes to one decimal above 1 MB, kilobytes to one
decimal above 1 KB, bytes below. -/
def formatBytes (size : Nat) : String :=
  if size ≥ 1024 * 1024 then
    let p := fixedOneDigit size (1024 * 1024)
    Nat.repr p.1 ++ "." ++ Nat.repr p.2 ++ " MB"
  else if size ≥ 1024 then
    let p := fixedOneDigit size 1024
    Nat.repr p.1 ++ "." ++ Nat.repr p.2 ++ " KB"
  else Nat.repr size ++ " B"

/-- The oversized-report entry for a candidate path: relative display name
plus formatted size.  rel stands for path.relative against the working
directory (falling back to the path itself when the relative form is empty). -/
def oversizeEntry (rel : String → String) (path : String) (size : Nat) : String :=
  rel path ++ " (" ++ formatBytes size ++ ")"

/-- The per-candidate loop of readFiles after expansion and filtering: stat
each candidate (a missing one aborts), skip non-files, collect oversized
report entries, collect accepted paths. -/
def sizeLoop (stat : String → Option FStat) (rel : String → String)
    (maxFileSizeBytes : Nat) : List String → Except FileError (List String × List String)
  | [] => Except.ok ([], [])
  | p :: rest =>
    match stat p with
    | none => Except.error (FileError.missing (rel p))
    | some st =>
      if ¬ st.isFile then sizeLoop stat rel maxFileSizeBytes rest
      else if maxFileSizeBytes ≠ 0 ∧ st.size > maxFileSizeBytes then
        match sizeLoop stat rel maxFileSizeBytes rest with
        | Except.error e => Except.error e
        | Except.ok (oversized, accepted) =>
          Except.ok (oversizeEntry rel p st.size :: oversized, accepted)
      else
        match sizeLoop stat rel maxFileSizeBytes rest with
        | Except.error e => Except.error e
        | Except.ok (oversized, accepted) => Except.ok (oversized, p :: accepted)

/-- The oversized report entries the size loop collects, in candidate order. -/
def oversizedEntriesOf (stat : String → Option FStat) (rel : String → String)
    (maxFileSizeBytes : Nat) (candidates : List String) : List String :=
  candidates.filterMap fun p =>
    (stat p).bind fun st =>
      if st.isFile = true ∧ maxFileSizeBytes ≠ 0 ∧ st.size > maxFileSizeBytes then
        some (oversizeEntry rel p st.size)
      else none

/-- The candidate paths the size loop accepts, in candidate order. -/
def acceptedOf (stat : String → Option FStat) (maxFileSizeBytes : Nat)
    (candidates : List String) : List String :=
  candidates.filter fun p =>
    match stat p with
    | some st => decide (st.isFile = true ∧ ¬ (maxFileSizeBytes ≠ 0 ∧ st.size > maxFileSizeBytes))
    | none => false

/-- The combined oversize error message of readFiles. -/
def oversizeMessage (oversized : List String) : String :=
  "The following files exceed the 1 MB limit:\n- " ++ String.intercalate "\n- " oversized

/-- The tail of readFiles from the filtered candidate list on: run the size
loop, raise the combined oversize error when any file was too large, and only
then read the accepted files.  readF stands for fsModule.readFile. -/
def readFilesSized (stat : String → Option FStat) (readF : String → String)
    (rel : String → String) (maxFileSizeBytes : Nat) (candidates : List String) :
    Except FileError (List FileContent) :=
  match sizeLoop stat rel maxFileSizeBytes candidates with
  | Except.error e => Except.error e
  | Except.ok (oversized, accepted) =>
    if oversized ≠ [] then
      Except.error (FileError.oversize (oversizeMessage oversized) oversized maxFileSizeBytes)
    else Except.ok (accepted.map fun p => { path := p, content := readF p })

/-- The partition of the raw --file inputs of readFiles. -/
structure Partitioned where
  globPatterns : List String
  excludePatterns : List String
  literalFiles : List String
  literalDirectories : List String
deriving DecidableEq

def emptyPartition : Partitioned :=
  { globPatterns := [], excludePatterns := [], literalFiles := [], literalDirectories := [] }

/-- The path-space operations readFiles delegates to the path module and to
fast-glob: pattern normalization, dynamic-pattern detection, and absolute
resolution against the working directory. -/
structure PathOps where
  normalizeGlob : String → String
  isDynamicPattern : String → Bool
  resolve : String → String

/-- The whitespace trim applied to each raw entry. -/
def trimEntry (entry : String) : String :=
  String.mk ((entry.data.dropWhile Char.isWhitespace).reverse.dropWhile
    Char.isWhitespace).reverse

/-- Embeds partitionFileInputs: trim each entry, skip blanks, classify
leading-bang entries as exclusions, dynamic patterns as globs, and stat the
rest into literal files and directories, failing on a missing or irregular
path. -/
def partitionFileInputs (po : PathOps) (stat : String → Option FStat) :
    List String → Except FileError Partitioned
  | [] => Except.ok emptyPartition
  | entry :: rest =>
    if (trimEntry entry).isEmpty then partitionFileInputs po stat rest
    else if "!".data.isPrefixOf (trimEntry entry).data then
      match partitionFileInputs po stat rest with
      | Except.error e => Except.error e
      | Except.ok p =>
        if (po.normalizeGlob (String.mk ((trimEntry entry).data.drop 1))).isEmpty then
          Except.ok p
        else
          Except.ok { p with
            excludePatterns :=
              (po.normalizeGlob (String.mk ((trimEntry entry).data.drop 1))) ::
                p.excludePatterns }
    else if po.isDynamicPattern (trimEntry entry) then
      match partitionFileInputs po stat rest with
      | Except.error e => Except.error e
      | Except.ok p =>
        Except.ok { p with
          globPatterns := (po.normalizeGlob (trimEntry entry)) :: p.globPatterns }
    else
      match stat (po.resolve (trimEntry entry)) with
      | none => Except.error (FileError.missing (trimEntry entry))
      | some st =>
        if st.isDirectory then
          match partitionFileInputs po stat rest with
          | Except.error e => Except.error e
          | Except.ok p =>
            Except.ok { p with
              literalDirectories := (po.resolve (trimEntry entry)) :: p.literalDirectories }
        else if st.isFile then
          match partitionFileInputs po stat rest with
          | Except.error e => Except.error e
          | Except.ok p =>
            Except.ok { p with
              literalFiles := (po.resolve (trimEntry entry)) :: p.literalFiles }
        else Except.error (FileError.notFileOrDirectory (trimEntry entry))

/-- Embeds readFiles.  The input is the raw --file list, none when the flag
is absent.  expandFilter stands for the native glob expansion plus
gitignore-aware and default-ignore filtering of the candidate paths (an
effectful subsystem over fast-glob and the real filesystem); everything
around it follows the source: the empty input short-circuits to an empty
result, an empty filtered candidate set raises the no-match validation
error, and the size stage runs only on a non-empty candidate set. -/
def readFiles (po : PathOps) (stat : String → Option FStat) (readF : String → String)
    (rel : String → String) (expandFilter : Partitioned → List String)
    (filePaths : Option (List String))
    (maxFileSizeBytes : Nat := MAX_FILE_SIZE_BYTES) :
    Except FileError (List FileContent) :=
  match filePaths with
  | none => Except.ok []
  | some l =>
    if l.isEmpty then Except.ok []
    else
      match partitionFileInputs po stat l with
      | Except.error e => Except.error e
      | Except.ok partitioned =>
        let filteredCandidates := expandFilter partitioned
        if filteredCandidates.isEmpty then
          Except.error
            (FileError.noMatch partitioned.globPatterns partitioned.excludePatterns)
        else readFilesSized stat readF rel maxFileSizeBytes filteredCandidates

/-! ## Theorems -/

/-- C3: cookie expiration normalization follows the documented thresholds:
values in the Chromium microseconds-since-1601 epoch (above 10^12) are
divided by one million and shifted by 11644473600, millisecond-epoch values
(above 10^9) and second-epoch values are rounded to whole Unix seconds, and
absent or non-positive values normalize to no expiration; in particular
1700000000 normalizes to 1700000 and 1700000000000 normalizes to
1700000000000 / 1000000 - 11644473600. -/
theorem normalizeExpiration_spec :
    normalizeExpiration none = none
    ∧ (∀ q : ℚ, q ≤ 0 → normalizeExpiration (some q) = none)
    ∧ (∀ q : ℚ, 1000000000000 < q →
        normalizeExpiration (some q) = some (jsRound (q / 1000000 - 11644473600)))
    ∧ (∀ q : ℚ, 1000000000 < q → q ≤ 1000000000000 →
        normalizeExpiration (some q) = some (jsRound (q / 1000)))
    ∧ (∀ q : ℚ, 0 < q → q ≤ 1000000000 → normalizeExpiration (some q) = some (jsRound q))
    ∧ normalizeExpiration (some 1700000000) = some 1700000
    ∧ normalizeExpiration (some 1700000000000)
        = some (1700000000000 / 1000000 - 11644473600 : ℤ) := by
  refine ⟨rfl, ?_, ?_, ?_, ?_, ?_, ?_⟩
  · intro q h
    simp only [normalizeExpiration]
    split_ifs <;> first | rfl | linarith
  · intro q h
    simp only [normalizeExpiration]
    split_ifs <;> first | rfl | linarith
  · intro q h h'
    simp only [normalizeExpiration]
    split_ifs <;> first | rfl | linarith
  · intro q h h'
    simp only [normalizeExpiration]
    split_ifs <;> first | rfl | linarith
  · norm_num [normalizeExpiration, jsRound]
  · norm_num [normalizeExpiration, jsRound]

/-- Witness for C3 at concrete inputs: a negative value, a microsecond-epoch
value and a small seconds value. -/
theorem normalizeExpiration_spec_witness :
    ((-5 : ℚ) ≤ 0 ∧ normalizeExpiration (some (-5)) = none)
    ∧ ((1000000000000 : ℚ) < 2000000000000
        ∧ normalizeExpiration (some 2000000000000)
            = some (jsRound ((2000000000000 : ℚ) / 1000000 - 11644473600)))
    ∧ ((0 : ℚ) < 5 ∧ (5 : ℚ) ≤ 1000000000
        ∧ normalizeExpiration (some 5) = some (jsRound 5)) :=
  ⟨⟨by decide, normalizeExpiration_spec.2.1 (-5) (by decide)⟩,
   ⟨by decide, normalizeExpiration_spec.2.2.1 2000000000000 (by decide)⟩,
   ⟨by decide, by decide, normalizeExpiration_spec.2.2.2.2.1 5 (by decide) (by decide)⟩⟩

/-- C8: the capability registry reports web search unsupported exactly for
Anthropic-family model names (those starting with claude), and the Anthropic
adapter never places any tool in the native call parameters, whatever tool
list the provider-agnostic request body carries. -/
theorem anthropic_search_gating :
    (∀ model : String,
      (toolSupportForModel model).search = false
        ↔ "claude".data.isPrefixOf model.data = true)
    ∧ (∀ body model, (buildAnthropicParams body model).tools = none)
    ∧ (∀ (body : OracleRequestBody) (model : String) (t1 t2 : Option (List String)),
        buildAnthropicParams { body with tools := t1 } model
          = buildAnthropicParams { body with tools := t2 } model) := by
  refine ⟨?_, fun _ _ => rfl, fun _ _ _ _ => rfl⟩
  intro model
  cases h : "claude".data.isPrefixOf model.data <;> simp [toolSupportForModel, h]

/-- C9: updateSessionMetadata is an upsert: with neither metadata file on
disk it writes and returns the bare id record shallow-merged with the update
fields instead of raising, and in general the written and returned records
coincide. -/
theorem updateSessionMetadata_upsert :
    (∀ sessionId patch,
      updateSessionMetadata none none sessionId patch
        = (applyPatch (emptyMeta sessionId) patch, applyPatch (emptyMeta sessionId) patch))
    ∧ (∀ sessionId patch,
        (updateSessionMetadata none none sessionId patch).2.id = (patch.id).getD sessionId
        ∧ (updateSessionMetadata none none sessionId patch).2.status = (patch.status).getD none
        ∧ (updateSessionMetadata none none sessionId patch).2.startedAt
            = (patch.startedAt).getD none)
    ∧ (∀ modern legacy sessionId patch,
        (updateSessionMetadata modern legacy sessionId patch).1
          = (updateSessionMetadata modern legacy sessionId patch).2) :=
  ⟨fun _ _ => rfl, fun _ _ => ⟨rfl, rfl, rfl⟩, fun _ _ _ _ => rfl⟩

/-- C1: evaluation at the failing input.  A stored running session whose
startedAt parses to 61 minutes ago is handed back from a read reclassified as
an error with the zombie message and a completion timestamp, while one 59
minutes old is returned unchanged; but the listing pipeline, which reads the
record (already reclassifying it in memory) and only then calls markZombie
with persist on, performs no metadata write at all, because the persisting
call sees a record that is no longer running.  The stored zombie therefore
stays running on disk, against the persistence conjunct of the claim and the
inline code comment. -/
theorem zombie_listing_never_persists :
    readSessionResult (fun s => if s = "S" then some 0 else none) 3660000 "ISO"
        { id := "sess", createdAt := some "C", startedAt := some "S", completedAt := none,
          status := some "running", errorMessage := none, promptPreview := none }
      = { id := "sess", createdAt := some "C", startedAt := some "S",
          completedAt := some "ISO", status := some "error",
          errorMessage := some zombieMessage, promptPreview := none }
    ∧ readSessionResult (fun s => if s = "S" then some 0 else none) 3540000 "ISO"
        { id := "sess", createdAt := some "C", startedAt := some "S", completedAt := none,
          status := some "running", errorMessage := none, promptPreview := none }
      = { id := "sess", createdAt := some "C", startedAt := some "S", completedAt := none,
          status := some "running", errorMessage := none, promptPreview := none }
    ∧ listSessionEntry (fun s => if s = "S" then some 0 else none) 3660000 "ISO"
        { id := "sess", createdAt := some "C", startedAt := some "S", completedAt := none,
          status := some "running", errorMessage := none, promptPreview := none }
      = ({ id := "sess", createdAt := some "C", startedAt := some "S",
           completedAt := some "ISO", status := some "error",
           errorMessage := some zombieMessage, promptPreview := none }, none) := by
  refine ⟨?_, ?_, ?_⟩ <;> decide

/-! ### Fence lemmas -/

theorem leadTicks_le_maxTickRun (l : List Char) : leadTicks l ≤ maxTickRun l := by
  induction l with
  | nil => simp [leadTicks, maxTickRun]
  | cons c t ih =>
    simp only [leadTicks, maxTickRun]
    split
    · exact le_max_left _ _
    · exact Nat.zero_le _

theorem maxTickRun_le_cons (c : Char) (t : List Char) :
    maxTickRun t ≤ maxTickRun (c :: t) := by
  simp only [maxTickRun]
  split
  · exact le_max_right _ _
  · exact le_refl _

theorem replicate_tick_leads (k : Nat) (t l : List Char)
    (h : List.replicate k btick ++ t = l) : k ≤ leadTicks l := by
  induction k generalizing l with
  | zero => exact Nat.zero_le _
  | succ k ih =>
    subst h
    simp only [List.replicate, List.cons_append, leadTicks, if_pos rfl]
    exact Nat.succ_le_succ (ih _ rfl)

theorem tickRun_le_max (k : Nat) (s t l : List Char)
    (h : s ++ List.replicate k btick ++ t = l) : k ≤ maxTickRun l := by
  induction s generalizing l with
  | nil =>
    simp only [List.nil_append] at h
    exact le_trans (replicate_tick_leads k t l h) (leadTicks_le_maxTickRun l)
  | cons c s ih =>
    subst h
    exact le_trans (ih _ rfl) (maxTickRun_le_cons _ _)

theorem maxTickRun_eq_zero (l : List Char) (h : btick ∉ l) : maxTickRun l = 0 := by
  induction l with
  | nil => rfl
  | cons c t ih =>
    simp only [List.mem_cons, not_or] at h
    have hc : ¬ c = btick := fun hc => h.1 hc.symm
    simp only [maxTickRun, if_neg hc]
    exact ih h.2

/-- C7: the fence picked for a file section is a backtick run whose length is
the maximum of 3 and one more than the longest backtick run of the content;
content containing a four-backtick run gets a fence of at least five
backticks, content without backticks gets exactly three, and the fence never
occurs as a substring of the content. -/
theorem pickFence_spec (content : List Char) :
    pickFence content = List.replicate (max 3 (maxTickRun content + 1)) btick
    ∧ (∀ s t, s ++ List.replicate 4 btick ++ t = content → 5 ≤ (pickFence content).length)
    ∧ (btick ∉ content → (pickFence content).length = 3)
    ∧ (∀ s t, s ++ pickFence content ++ t ≠ content) := by
  refine ⟨rfl, ?_, ?_, ?_⟩
  · intro s t h
    have h4 : 4 ≤ maxTickRun content := tickRun_le_max 4 s t content h
    simp only [pickFence, List.length_replicate]
    omega
  · intro h
    simp only [pickFence, List.length_replicate, maxTickRun_eq_zero content h]
    omega
  · intro s t h
    have hle : max 3 (maxTickRun content + 1) ≤ maxTickRun content :=
      tickRun_le_max _ s t content (by simpa [pickFence] using h)
    omega

/-- Witness for C7: content with a four-backtick run gets a long fence, and
plain content keeps the minimum fence. -/
theorem pickFence_spec_witness :
    (['a'] ++ List.replicate 4 btick ++ ['b']
        = ['a', btick, btick, btick, btick, 'b']
      ∧ 5 ≤ (pickFence ['a', btick, btick, btick, btick, 'b']).length)
    ∧ (btick ∉ ['a', 'b', 'c'] ∧ (pickFence ['a', 'b', 'c']).length = 3) :=
  ⟨⟨by decide, (pickFence_spec ['a', btick, btick, btick, btick, 'b']).2.1 ['a'] ['b']
      (by decide)⟩,
   ⟨by decide, (pickFence_spec ['a', 'b', 'c']).2.2.1 (by decide)⟩⟩

/-! ### Slug lemmas -/

theorem runsGo_props (l : List Char) : ∀ acc, (∀ c ∈ acc, isSlugChar c = true) →
    ∀ r ∈ runsGo l acc, r ≠ [] ∧ ∀ c ∈ r, isSlugChar c = true := by
  induction l with
  | nil =>
    intro acc hacc r hr
    simp only [runsGo] at hr
    split at hr
    · simp at hr
    · next hne =>
      simp only [List.mem_singleton] at hr
      subst hr
      refine ⟨by simpa using fun h => hne (by simp [h, List.isEmpty_iff]), ?_⟩
      intro c hc
      exact hacc c (List.mem_reverse.mp hc)
  | cons c t ih =>
    intro acc hacc r hr
    simp only [runsGo] at hr
    split at hr
    · next hslug =>
      refine ih (c :: acc) ?_ r hr
      intro x hx
      rcases List.mem_cons.mp hx with h | h
      · exact h ▸ hslug
      · exact hacc x h
    · split at hr
      · exact ih [] (by simp) r hr
      · next hne =>
        rcases List.mem_cons.mp hr with h | h
        · subst h
          refine ⟨by simpa using fun h => hne (by simp [h, List.isEmpty_iff]), ?_⟩
          intro x hx
          exact hacc x (List.mem_reverse.mp hx)
        · exact ih [] (by simp) r h

theorem alnumRuns_props (l : List Char) :
    ∀ r ∈ alnumRuns l, r ≠ [] ∧ ∀ c ∈ r, isSlugChar c = true :=
  runsGo_props l [] (by simp)

theorem hyphenSplit_ne_nil (l : List Char) : hyphenSplit l ≠ [] := by
  cases l with
  | nil => simp [hyphenSplit]
  | cons c t =>
    simp only [hyphenSplit]
    cases h : hyphenSplit t with
    | nil => simp
    | cons hd r =>
      simp only []
      split <;> simp

theorem hyphenSplit_append (w l : List Char) (hw : '-' ∉ w) :
    hyphenSplit (w ++ l) = (w ++ (hyphenSplit l).headI) :: (hyphenSplit l).tail := by
  induction w with
  | nil =>
    simp only [List.nil_append]
    rcases h : hyphenSplit l with _ | ⟨hd, r⟩
    · exact absurd h (hyphenSplit_ne_nil l)
    · simp [h]
  | cons c w ih =>
    simp only [List.mem_cons, not_or] at hw
    have hc : ¬ c = '-' := fun h => hw.1 h.symm
    simp only [List.cons_append, hyphenSplit, List.append_eq]
    rw [ih (by simpa using fun h => hw.2 h)]
    simp [hc]

theorem hyphenSplit_joinWords (ws : List (List Char)) (hne : ws ≠ [])
    (hfree : ∀ w ∈ ws, '-' ∉ w) : hyphenSplit (joinWords ws) = ws := by
  induction ws with
  | nil => exact absurd rfl hne
  | cons w ws ih =>
    cases ws with
    | nil =>
      have h1 := hyphenSplit_append w [] (hfree w (by simp))
      simp only [List.append_nil] at h1
      simp [joinWords, h1, hyphenSplit]
    | cons w2 ws2 =>
      have hjw : joinWords (w :: w2 :: ws2) = w ++ '-' :: joinWords (w2 :: ws2) := rfl
      rw [hjw, hyphenSplit_append w ('-' :: joinWords (w2 :: ws2)) (hfree w (by simp))]
      have h2 : hyphenSplit ('-' :: joinWords (w2 :: ws2))
          = [] :: hyphenSplit (joinWords (w2 :: ws2)) := by
        simp only [hyphenSplit]
        rcases h : hyphenSplit (joinWords (w2 :: ws2)) with _ | ⟨hd, r⟩
        · exact absurd h (hyphenSplit_ne_nil _)
        · simp
      rw [h2, ih (by simp) (fun x hx => hfree x (List.mem_cons_of_mem _ hx))]
      simp

/-- Properties of the trimmed word list of slugify. -/
theorem slug_trimmed_props (l : List Char) (w : List Char)
    (hw : w ∈ ((alnumRuns l).take MAX_SLUG_WORDS).map fun r => r.take MAX_SLUG_WORD_LENGTH) :
    w ≠ [] ∧ w.length ≤ MAX_SLUG_WORD_LENGTH ∧ (∀ c ∈ w, isSlugChar c = true) ∧ '-' ∉ w := by
  rcases List.mem_map.mp hw with ⟨r, hr, rfl⟩
  have hr' : r ∈ alnumRuns l := List.take_subset _ _ hr
  obtain ⟨hne, hchars⟩ := alnumRuns_props l r hr'
  have hchars' : ∀ c ∈ r.take MAX_SLUG_WORD_LENGTH, isSlugChar c = true :=
    fun c hc => hchars c (List.take_subset _ _ hc)
  refine ⟨?_, List.length_take_le _ _, hchars', ?_⟩
  · simp only [ne_eq, List.take_eq_nil_iff]
    rintro (h | h)
    · exact absurd h (by simp [MAX_SLUG_WORD_LENGTH])
    · exact hne h
  · intro hmem
    have := hchars' '-' hmem
    simp [isSlugChar] at this

/-- C2: the generated slug is the hyphen join of the first five lower-cased
alphanumeric runs of the prompt truncated to ten characters, with the literal
session fallback for prompts without alphanumeric content; the slug never has
more than five words and every word is a short lower-case alphanumeric run;
a custom slug is normalized the same way and rejected exactly when its word
count is below three or above five. -/
theorem createSessionId_slug_spec (prompt custom : String) :
    (alnumRuns (prompt.data.map Char.toLower) = [] → slugify prompt = DEFAULT_SLUG)
    ∧ (alnumRuns (prompt.data.map Char.toLower) ≠ [] →
        slugify prompt = String.mk (joinWords
          (((alnumRuns (prompt.data.map Char.toLower)).take MAX_SLUG_WORDS).map
            fun w => w.take MAX_SLUG_WORD_LENGTH)))
    ∧ countSlugWords (slugify prompt) ≤ MAX_SLUG_WORDS
    ∧ (∀ w ∈ (hyphenSplit (slugify prompt).data).filter (fun w => w ≠ []),
        w.length ≤ MAX_SLUG_WORD_LENGTH ∧ ∀ c ∈ w, isSlugChar c = true)
    ∧ (normalizeCustomSlug custom = Except.ok (slugify custom)
        ↔ MIN_CUSTOM_SLUG_WORDS ≤ countSlugWords (slugify custom))
    ∧ ((∃ e, normalizeCustomSlug custom = Except.error e)
        ↔ (countSlugWords (slugify custom) < MIN_CUSTOM_SLUG_WORDS
            ∨ countSlugWords (slugify custom) > MAX_SLUG_WORDS))
    ∧ createSessionId prompt none = Except.ok (slugify prompt) := by
  have slug_shape : ∀ text : String,
      (alnumRuns (text.data.map Char.toLower) = [] → slugify text = DEFAULT_SLUG)
      ∧ (alnumRuns (text.data.map Char.toLower) ≠ [] →
          slugify text = String.mk (joinWords
            (((alnumRuns (text.data.map Char.toLower)).take MAX_SLUG_WORDS).map
              fun w => w.take MAX_SLUG_WORD_LENGTH))) := by
    intro text
    constructor
    · intro h
      simp [slugify, h]
    · intro h
      have hpos : 0 < (((alnumRuns (text.data.map Char.toLower)).take MAX_SLUG_WORDS).map
          fun w => w.take MAX_SLUG_WORD_LENGTH).length := by
        simp only [List.length_map, List.length_take]
        have := List.length_pos.mpr h
        simp [MAX_SLUG_WORDS]
        omega
      simp only [slugify]
      split
      · rfl
      · next hcon => exact absurd hpos hcon
  have count_bound : ∀ text : String,
      countSlugWords (slugify text) ≤ MAX_SLUG_WORDS := by
    intro text
    by_cases h : alnumRuns (text.data.map Char.toLower) = []
    · rw [(slug_shape text).1 h]
      decide
    · rw [(slug_shape text).2 h]
      set trimmed := ((alnumRuns (text.data.map Char.toLower)).take MAX_SLUG_WORDS).map
        fun w => w.take MAX_SLUG_WORD_LENGTH with htr
      have hne : trimmed ≠ [] := by
        simp only [htr, ne_eq, List.map_eq_nil_iff, List.take_eq_nil_iff]
        rintro (h' | h')
        · exact absurd h' (by simp [MAX_SLUG_WORDS])
        · exact h h'
      have hfree : ∀ w ∈ trimmed, '-' ∉ w :=
        fun w hw => (slug_trimmed_props _ w hw).2.2.2
      have hsplit : hyphenSplit (joinWords trimmed) = trimmed :=
        hyphenSplit_joinWords trimmed hne hfree
      simp only [countSlugWords, String.toList, String.mk, hsplit]
      calc (trimmed.filter fun w => w ≠ []).length
          ≤ trimmed.length := List.length_filter_le _ _
        _ ≤ MAX_SLUG_WORDS := by
            simp [htr, List.length_take]
  refine ⟨(slug_shape prompt).1, (slug_shape prompt).2, count_bound prompt, ?_, ?_, ?_, rfl⟩
  · intro w hw
    by_cases h : alnumRuns (prompt.data.map Char.toLower) = []
    · rw [(slug_shape prompt).1 h] at hw
      have hall : ∀ w ∈ (hyphenSplit (DEFAULT_SLUG : String).data).filter (fun w => w ≠ []),
          w.length ≤ MAX_SLUG_WORD_LENGTH ∧ ∀ c ∈ w, isSlugChar c = true := by decide
      exact hall w hw
    · rw [(slug_shape prompt).2 h] at hw
      set trimmed := ((alnumRuns (prompt.data.map Char.toLower)).take MAX_SLUG_WORDS).map
        fun w => w.take MAX_SLUG_WORD_LENGTH with htr
      have hne : trimmed ≠ [] := by
        simp only [htr, ne_eq, List.map_eq_nil_iff, List.take_eq_nil_iff]
        rintro (h' | h')
        · exact absurd h' (by simp [MAX_SLUG_WORDS])
        · exact h h'
      have hfree : ∀ w ∈ trimmed, '-' ∉ w :=
        fun w hw => (slug_trimmed_props _ w hw).2.2.2
      have hsplit : hyphenSplit (joinWords trimmed) = trimmed :=
        hyphenSplit_joinWords trimmed hne hfree
      simp only [String.mk, hsplit] at hw
      have hw' : w ∈ trimmed := List.mem_of_mem_filter hw
      exact ⟨(slug_trimmed_props _ w hw').2.1, (slug_trimmed_props _ w hw').2.2.1⟩
  · have hle := count_bound custom
    simp only [normalizeCustomSlug]
    constructor
    · intro h
      by_contra hlt
      rw [if_pos (Or.inl (by omega))] at h
      exact Except.noConfusion h
    · intro h
      rw [if_neg]
      omega
  · have hle := count_bound custom
    simp only [normalizeCustomSlug]
    constructor
    · rintro ⟨e, he⟩
      by_contra hcon
      rw [if_neg (by omega)] at he
      exact Except.noConfusion he
    · intro h
      exact ⟨invalidSlugMessage, by rw [if_pos h]⟩

/-- Witness for C2: a prompt without alphanumeric content falls back to the
literal slug, and a normal prompt produces the join of its runs. -/
theorem createSessionId_slug_spec_witness :
    (alnumRuns (("!!!" : String).data.map Char.toLower) = [] ∧ slugify "!!!" = DEFAULT_SLUG)
    ∧ (alnumRuns (("Hi there" : String).data.map Char.toLower) ≠ []
        ∧ slugify "Hi there" = String.mk (joinWords
            (((alnumRuns (("Hi there" : String).data.map Char.toLower)).take MAX_SLUG_WORDS).map
              fun w => w.take MAX_SLUG_WORD_LENGTH))) :=
  ⟨⟨by decide, (createSessionId_slug_spec "!!!" "x").1 (by decide)⟩,
   ⟨by decide, (createSessionId_slug_spec "Hi there" "x").2.1 (by decide)⟩⟩

/-! ### Combined-log ordering lemmas -/

theorem string_compare_ne_gt (a b : String) : compare a b ≠ Ordering.gt ↔ a ≤ b := by
  rw [ne_eq, compare_gt_iff_gt]
  exact not_lt

theorem leRun_iff_hasStart (a b : ModelRun) (ha : hasStart a = true) (hb : hasStart b = true) :
    leRun a b ↔ startKey a ≤ startKey b := by
  unfold hasStart at ha hb
  unfold leRun cmpRun startKey
  cases hsa : a.startedAt with
  | none => rw [hsa] at ha; simp at ha
  | some sa =>
    cases hsb : b.startedAt with
    | none => rw [hsb] at hb; simp at hb
    | some sb =>
      rw [hsa] at ha
      rw [hsb] at hb
      simp only at ha hb
      have ha' : sa.isEmpty = false := by simpa using ha
      have hb' : sb.isEmpty = false := by simpa using hb
      have hcond : ¬ (sa.isEmpty = true ∨ sb.isEmpty = true) := by simp [ha', hb']
      simp only [if_neg hcond, Option.getD_some]
      exact string_compare_ne_gt sa sb

theorem leRun_iff_noStart (a b : ModelRun) (ha : a.startedAt = none) (hb : b.startedAt = none) :
    leRun a b ↔ a.model ≤ b.model := by
  unfold leRun cmpRun
  rw [ha, hb]
  exact string_compare_ne_gt a.model b.model

theorem orderedInsert_sorted_key (key : ModelRun → String) (P : ModelRun → Prop)
    (hagree : ∀ a b, P a → P b → (leRun a b ↔ key a ≤ key b))
    (a : ModelRun) (ha : P a) :
    ∀ l, (∀ x ∈ l, P x) → List.Sorted (fun x y => key x ≤ key y) l →
      List.Sorted (fun x y => key x ≤ key y) (List.orderedInsert leRun a l) := by
  intro l
  induction l with
  | nil =>
    intro _ _
    simp [List.orderedInsert]
  | cons b t ih =>
    intro hl hs
    rw [List.orderedInsert]
    split
    · next hab =>
      have hkab : key a ≤ key b := (hagree a b ha (hl b (by simp))).mp hab
      refine List.sorted_cons.mpr ⟨?_, hs⟩
      intro x hx
      rcases List.mem_cons.mp hx with rfl | hx
      · exact hkab
      · exact le_trans hkab ((List.sorted_cons.mp hs).1 x hx)
    · next hab =>
      have hkba : key b ≤ key a := by
        have hk : ¬ key a ≤ key b := fun hk => hab ((hagree a b ha (hl b (by simp))).mpr hk)
        exact le_of_not_le hk
      obtain ⟨hbt, hst⟩ := List.sorted_cons.mp hs
      refine List.sorted_cons.mpr ⟨?_, ih (fun x hx => hl x (by simp [hx])) hst⟩
      intro x hx
      rcases (List.mem_orderedInsert leRun).mp hx with rfl | hx
      · exact hkba
      · exact hbt x hx

theorem insertionSort_sorted_key (key : ModelRun → String) (P : ModelRun → Prop)
    (hagree : ∀ a b, P a → P b → (leRun a b ↔ key a ≤ key b)) :
    ∀ l : List ModelRun, (∀ x ∈ l, P x) →
      List.Sorted (fun x y => key x ≤ key y) (List.insertionSort leRun l) := by
  intro l
  induction l with
  | nil =>
    intro _
    simp
  | cons a t ih =>
    intro hl
    rw [List.insertionSort]
    refine orderedInsert_sorted_key key P hagree a (hl a (by simp)) _ ?_
      (ih fun x hx => hl x (by simp [hx]))
    intro x hx
    exact hl x (List.mem_cons.mpr (Or.inr ((List.mem_insertionSort leRun).mp hx)))

/-- C4 counterexample: two model records with the same recorded start time
are kept in listing order by the stable sort, because the comparator returns
the equal-ordering on them instead of falling back to model names; the claim
as stated predicts the a-section to precede the b-section. -/
theorem readSessionLog_tie_counterexample :
    readSessionLog
        [{ model := "b", startedAt := some "2024-01-01T00:00:00Z", logBody := "B" },
         { model := "a", startedAt := some "2024-01-01T00:00:00Z", logBody := "A" }] none
      = "=== b ===\nB\n\n=== a ===\nA"
    ∧ readSessionLog
        [{ model := "b", startedAt := some "2024-01-01T00:00:00Z", logBody := "B" },
         { model := "a", startedAt := some "2024-01-01T00:00:00Z", logBody := "A" }] none
      ≠ "=== a ===\nA\n\n=== b ===\nB" := by
  refine ⟨?_, ?_⟩ <;> decide

/-- C4 amended: the combined log concatenates one header section per model
record, ordered by the stable sort under the source comparator, which orders
by recorded start time when both records carry one (records with equal start
times keep their listing order) and by model name when either record lacks a
start time; when no per-model log has content the legacy log content is
returned instead. -/
theorem readSessionLog_amended (runs : List ModelRun) (legacy : Option String)
    (h : runs ≠ []) :
    List.Perm (List.insertionSort leRun runs) runs
    ∧ ((∀ r ∈ runs, hasStart r = true) →
        List.Sorted (fun a b => startKey a ≤ startKey b) (List.insertionSort leRun runs))
    ∧ ((∀ r ∈ runs, r.startedAt = none) →
        List.Sorted (fun a b : ModelRun => a.model ≤ b.model) (List.insertionSort leRun runs))
    ∧ (((List.insertionSort leRun runs).any fun r => ¬ r.logBody.isEmpty) = true →
        readSessionLog runs legacy
          = String.intercalate "\n\n" ((List.insertionSort leRun runs).map sectionOf))
    ∧ ((∀ r ∈ runs, r.logBody.isEmpty = true) → ∀ s, legacy = some s →
        readSessionLog runs legacy = s) := by
  have hne : runs.isEmpty = false := by
    cases runs with
    | nil => exact absurd rfl h
    | cons a t => rfl
  refine ⟨List.perm_insertionSort leRun runs, ?_, ?_, ?_, ?_⟩
  · intro hall
    exact insertionSort_sorted_key startKey (fun r => hasStart r = true)
      leRun_iff_hasStart runs hall
  · intro hall
    exact insertionSort_sorted_key (fun r => r.model) (fun r => r.startedAt = none)
      leRun_iff_noStart runs hall
  · intro hc
    simp only [readSessionLog, hne, Bool.false_eq_true, if_false, hc]
    simp
  · intro hall s hs
    have hc : ((List.insertionSort leRun runs).any fun r => ¬ r.logBody.isEmpty) = false := by
      rw [List.any_eq_false]
      intro r hr
      have : r ∈ runs := (List.mem_insertionSort leRun).mp hr
      simp [hall r this]
    simp only [readSessionLog, hne, Bool.false_eq_true, if_false, hc, hs]
    simp

/-- Witness for C4: records with distinct start times come out sorted by
start time, and a run set with empty logs falls back to the legacy log. -/
theorem readSessionLog_amended_witness :
    List.Sorted (fun a b : ModelRun => startKey a ≤ startKey b)
        (List.insertionSort leRun
          [{ model := "b", startedAt := some "2", logBody := "B" },
           { model := "a", startedAt := some "1", logBody := "A" }])
    ∧ readSessionLog
        [{ model := "b", startedAt := none, logBody := "" },
         { model := "a", startedAt := none, logBody := "" }] (some "L") = "L" :=
  ⟨(readSessionLog_amended
      [{ model := "b", startedAt := some "2", logBody := "B" },
       { model := "a", startedAt := some "1", logBody := "A" }] none
      (by decide)).2.1 (by decide),
   (readSessionLog_amended
      [{ model := "b", startedAt := none, logBody := "" },
       { model := "a", startedAt := none, logBody := "" }] (some "L")
      (by decide)).2.2.2.2 (by decide) "L" rfl⟩

/-! ### File-handling lemmas -/

theorem sizeLoop_eq (stat : String → Option FStat) (rel : String → String) (maxB : Nat) :
    ∀ cands : List String, (∀ p ∈ cands, (stat p).isSome = true) →
      sizeLoop stat rel maxB cands
        = Except.ok (oversizedEntriesOf stat rel maxB cands, acceptedOf stat maxB cands) := by
  intro cands
  induction cands with
  | nil => intro _; rfl
  | cons p rest ih =>
    intro h
    have hp : (stat p).isSome = true := h p (by simp)
    obtain ⟨st, hst⟩ := Option.isSome_iff_exists.mp hp
    have hrest := ih fun q hq => h q (by simp [hq])
    by_cases hfile : st.isFile = true
    · by_cases hover : maxB ≠ 0 ∧ st.size > maxB
      · obtain ⟨h0, hsz⟩ := hover
        simp [sizeLoop, hst, hrest, oversizedEntriesOf, acceptedOf, hfile, h0, hsz,
          List.filterMap_cons, List.filter_cons]
      · simp only [sizeLoop, hst, hrest, oversizedEntriesOf, acceptedOf,
          List.filterMap_cons, List.filter_cons, hfile]
        simp [hfile, hover]
    · simp [sizeLoop, hst, hrest, oversizedEntriesOf, acceptedOf, hfile,
        List.filterMap_cons, List.filter_cons]

theorem sizeLoop_error_shape (stat : String → Option FStat) (rel : String → String)
    (maxB : Nat) : ∀ cands e, sizeLoop stat rel maxB cands = Except.error e →
      ∃ p, e = FileError.missing p := by
  intro cands
  induction cands with
  | nil => intro e he; exact Except.noConfusion he
  | cons p rest ih =>
    intro e he
    simp only [sizeLoop] at he
    split at he
    · injection he with h
      exact ⟨_, h.symm⟩
    · split at he
      · exact ih e he
      · split at he
        · cases hrec : sizeLoop stat rel maxB rest with
          | error e2 =>
            rw [hrec] at he
            injection he with h
            obtain ⟨q, hq⟩ := ih e2 hrec
            exact ⟨q, h ▸ hq⟩
          | ok pr =>
            rw [hrec] at he
            obtain ⟨ov, ac⟩ := pr
            exact Except.noConfusion he
        · cases hrec : sizeLoop stat rel maxB rest with
          | error e2 =>
            rw [hrec] at he
            injection he with h
            obtain ⟨q, hq⟩ := ih e2 hrec
            exact ⟨q, h ▸ hq⟩
          | ok pr =>
            rw [hrec] at he
            obtain ⟨ov, ac⟩ := pr
            exact Except.noConfusion he

theorem readFilesSized_no_noMatch (stat : String → Option FStat) (readF : String → String)
    (rel : String → String) (maxB : Nat) (cands : List String) (pats exs : List String) :
    readFilesSized stat readF rel maxB cands ≠ Except.error (FileError.noMatch pats exs) := by
  intro he
  unfold readFilesSized at he
  cases hl : sizeLoop stat rel maxB cands with
  | error e =>
    rw [hl] at he
    obtain ⟨q, hq⟩ := sizeLoop_error_shape stat rel maxB cands e hl
    injection he with h
    rw [hq] at h
    exact FileError.noConfusion h
  | ok pr =>
    rw [hl] at he
    obtain ⟨ov, ac⟩ := pr
    have he' : (if ov ≠ [] then
          Except.error (FileError.oversize (oversizeMessage ov) ov maxB)
        else Except.ok (ac.map fun p => ({ path := p, content := readF p } : FileContent)))
        = Except.error (FileError.noMatch pats exs) := he
    split at he'
    · injection he' with h
      exact FileError.noConfusion h
    · exact Except.noConfusion he'

/-- C5: with the default one-megabyte limit, a candidate file of exactly
1048576 bytes is accepted while every strictly larger file is collected into
the oversized report; when any file is oversized the operation raises the
single combined validation error naming every oversized file with its
formatted size and returns no contents, and otherwise it returns the contents
of exactly the accepted files. -/
theorem readFiles_size_limit (stat : String → Option FStat) (readF : String → String)
    (rel : String → String) (cands : List String)
    (h : ∀ p ∈ cands, (stat p).isSome = true) :
    (oversizedEntriesOf stat rel MAX_FILE_SIZE_BYTES cands = [] →
      readFilesSized stat readF rel MAX_FILE_SIZE_BYTES cands
        = Except.ok ((acceptedOf stat MAX_FILE_SIZE_BYTES cands).map
            fun p => { path := p, content := readF p }))
    ∧ (oversizedEntriesOf stat rel MAX_FILE_SIZE_BYTES cands ≠ [] →
        readFilesSized stat readF rel MAX_FILE_SIZE_BYTES cands
          = Except.error (FileError.oversize
              (oversizeMessage (oversizedEntriesOf stat rel MAX_FILE_SIZE_BYTES cands))
              (oversizedEntriesOf stat rel MAX_FILE_SIZE_BYTES cands) MAX_FILE_SIZE_BYTES))
    ∧ (∀ p ∈ cands, ∀ st, stat p = some st → st.isFile = true → st.size = 1048576 →
        p ∈ acceptedOf stat MAX_FILE_SIZE_BYTES cands)
    ∧ (∀ p ∈ cands, ∀ st, stat p = some st → st.isFile = true → 1048576 < st.size →
        oversizeEntry rel p st.size ∈ oversizedEntriesOf stat rel MAX_FILE_SIZE_BYTES cands
          ∧ p ∉ acceptedOf stat MAX_FILE_SIZE_BYTES cands) := by
  have hloop := sizeLoop_eq stat rel MAX_FILE_SIZE_BYTES cands h
  refine ⟨?_, ?_, ?_, ?_⟩
  · intro hempty
    unfold readFilesSized
    rw [hloop]
    show (if oversizedEntriesOf stat rel MAX_FILE_SIZE_BYTES cands ≠ [] then
        Except.error (FileError.oversize
          (oversizeMessage (oversizedEntriesOf stat rel MAX_FILE_SIZE_BYTES cands))
          (oversizedEntriesOf stat rel MAX_FILE_SIZE_BYTES cands) MAX_FILE_SIZE_BYTES)
      else Except.ok ((acceptedOf stat MAX_FILE_SIZE_BYTES cands).map
        fun p => ({ path := p, content := readF p } : FileContent)))
      = Except.ok ((acceptedOf stat MAX_FILE_SIZE_BYTES cands).map
        fun p => ({ path := p, content := readF p } : FileContent))
    rw [if_neg (fun hx => hx hempty)]
  · intro hne
    unfold readFilesSized
    rw [hloop]
    show (if oversizedEntriesOf stat rel MAX_FILE_SIZE_BYTES cands ≠ [] then
        Except.error (FileError.oversize
          (oversizeMessage (oversizedEntriesOf stat rel MAX_FILE_SIZE_BYTES cands))
          (oversizedEntriesOf stat rel MAX_FILE_SIZE_BYTES cands) MAX_FILE_SIZE_BYTES)
      else Except.ok ((acceptedOf stat MAX_FILE_SIZE_BYTES cands).map
        fun p => ({ path := p, content := readF p } : FileContent)))
      = Except.error (FileError.oversize
          (oversizeMessage (oversizedEntriesOf stat rel MAX_FILE_SIZE_BYTES cands))
          (oversizedEntriesOf stat rel MAX_FILE_SIZE_BYTES cands) MAX_FILE_SIZE_BYTES)
    rw [if_pos hne]
  · intro p hp st hst hfile hsz
    refine List.mem_filter.mpr ⟨hp, ?_⟩
    rw [hst]
    simp only [decide_eq_true_eq]
    refine ⟨hfile, ?_⟩
    rintro ⟨-, hgt⟩
    rw [hsz] at hgt
    simp [MAX_FILE_SIZE_BYTES] at hgt
  · intro p hp st hst hfile hsz
    constructor
    · refine List.mem_filterMap.mpr ⟨p, hp, ?_⟩
      rw [hst]
      show (if st.isFile = true ∧ MAX_FILE_SIZE_BYTES ≠ 0 ∧ st.size > MAX_FILE_SIZE_BYTES then
          some (oversizeEntry rel p st.size) else none) = some (oversizeEntry rel p st.size)
      rw [if_pos ⟨hfile, by decide,
        by have h1 : MAX_FILE_SIZE_BYTES = 1048576 := rfl; omega⟩]
    · intro hmem
      have := (List.mem_filter.mp hmem).2
      rw [hst] at this
      simp only [decide_eq_true_eq] at this
      exact this.2 ⟨by decide, by have h1 : MAX_FILE_SIZE_BYTES = 1048576 := rfl; omega⟩

/-- Witness for C5: a set with one file of exactly one megabyte and one file
one byte over produces the combined oversize error, and the oversized file
alone with the limit-sized file removed from the report. -/
theorem readFiles_size_limit_witness :
    (oversizedEntriesOf
        (fun p => if p = "ok.txt" then some { isFile := true, isDirectory := false, size := 1048576 }
          else if p = "big.txt" then some { isFile := true, isDirectory := false, size := 1048577 }
          else none)
        (fun p => p) MAX_FILE_SIZE_BYTES ["ok.txt", "big.txt"] ≠ [])
    ∧ readFilesSized
        (fun p => if p = "ok.txt" then some { isFile := true, isDirectory := false, size := 1048576 }
          else if p = "big.txt" then some { isFile := true, isDirectory := false, size := 1048577 }
          else none)
        (fun _ => "data") (fun p => p) MAX_FILE_SIZE_BYTES ["ok.txt", "big.txt"]
      = Except.error (FileError.oversize
          (oversizeMessage (oversizedEntriesOf
            (fun p => if p = "ok.txt" then some { isFile := true, isDirectory := false, size := 1048576 }
              else if p = "big.txt" then some { isFile := true, isDirectory := false, size := 1048577 }
              else none)
            (fun p => p) MAX_FILE_SIZE_BYTES ["ok.txt", "big.txt"]))
          (oversizedEntriesOf
            (fun p => if p = "ok.txt" then some { isFile := true, isDirectory := false, size := 1048576 }
              else if p = "big.txt" then some { isFile := true, isDirectory := false, size := 1048577 }
              else none)
            (fun p => p) MAX_FILE_SIZE_BYTES ["ok.txt", "big.txt"]) MAX_FILE_SIZE_BYTES) :=
  ⟨by decide,
   (readFiles_size_limit
      (fun p => if p = "ok.txt" then some { isFile := true, isDirectory := false, size := 1048576 }
        else if p = "big.txt" then some { isFile := true, isDirectory := false, size := 1048577 }
        else none)
      (fun _ => "data") (fun p => p) ["ok.txt", "big.txt"] (by decide)).2.1 (by decide)⟩

theorem partition_error_shape (po : PathOps) (stat : String → Option FStat) :
    ∀ l e, partitionFileInputs po stat l = Except.error e →
      (∃ p, e = FileError.missing p) ∨ (∃ p, e = FileError.notFileOrDirectory p) := by
  intro l
  induction l with
  | nil => intro e he; exact Except.noConfusion he
  | cons entry rest ih =>
    intro e he
    simp only [partitionFileInputs] at he
    split at he
    · exact ih e he
    · split at he
      · cases hrec : partitionFileInputs po stat rest with
        | error e2 =>
          rw [hrec] at he
          injection he with h
          rcases ih e2 hrec with ⟨q, hq⟩ | ⟨q, hq⟩
          · exact Or.inl ⟨q, h ▸ hq⟩
          · exact Or.inr ⟨q, h ▸ hq⟩
        | ok p =>
          rw [hrec] at he
          cases hc : (po.normalizeGlob (String.mk ((trimEntry entry).data.drop 1))).isEmpty <;>
            rw [List.drop_one] at hc <;> simp [hc] at he
      · split at he
        · cases hrec : partitionFileInputs po stat rest with
          | error e2 =>
            rw [hrec] at he
            injection he with h
            rcases ih e2 hrec with ⟨q, hq⟩ | ⟨q, hq⟩
            · exact Or.inl ⟨q, h ▸ hq⟩
            · exact Or.inr ⟨q, h ▸ hq⟩
          | ok p =>
            rw [hrec] at he
            exact Except.noConfusion he
        · split at he
          · injection he with h
            exact Or.inl ⟨_, h.symm⟩
          · split at he
            · cases hrec : partitionFileInputs po stat rest with
              | error e2 =>
                rw [hrec] at he
                injection he with h
                rcases ih e2 hrec with ⟨q, hq⟩ | ⟨q, hq⟩
                · exact Or.inl ⟨q, h ▸ hq⟩
                · exact Or.inr ⟨q, h ▸ hq⟩
              | ok p =>
                rw [hrec] at he
                exact Except.noConfusion he
            · split at he
              · cases hrec : partitionFileInputs po stat rest with
                | error e2 =>
                  rw [hrec] at he
                  injection he with h
                  rcases ih e2 hrec with ⟨q, hq⟩ | ⟨q, hq⟩
                  · exact Or.inl ⟨q, h ▸ hq⟩
                  · exact Or.inr ⟨q, h ▸ hq⟩
                | ok p =>
                  rw [hrec] at he
                  exact Except.noConfusion he
              · injection he with h
                exact Or.inr ⟨_, h.symm⟩

/-- C10: an absent or empty attachment list returns the empty result without
any error, and the no-match file-validation error arises exactly from a
non-empty input whose partition succeeded but whose expansion and ignore
filtering produced no candidate files. -/
theorem readFiles_noMatch_spec (po : PathOps) (stat : String → Option FStat)
    (readF : String → String) (rel : String → String)
    (expandFilter : Partitioned → List String) :
    (readFiles po stat readF rel expandFilter none = Except.ok [])
    ∧ (readFiles po stat readF rel expandFilter (some []) = Except.ok [])
    ∧ (∀ l pats exs,
        readFiles po stat readF rel expandFilter (some l)
            = Except.error (FileError.noMatch pats exs) →
        l ≠ [] ∧ ∃ prt, partitionFileInputs po stat l = Except.ok prt
          ∧ expandFilter prt = [] ∧ pats = prt.globPatterns ∧ exs = prt.excludePatterns)
    ∧ (∀ l prt, l ≠ [] → partitionFileInputs po stat l = Except.ok prt →
        expandFilter prt = [] →
        readFiles po stat readF rel expandFilter (some l)
          = Except.error (FileError.noMatch prt.globPatterns prt.excludePatterns)) := by
  refine ⟨rfl, rfl, ?_, ?_⟩
  · intro l pats exs he
    cases l with
    | nil => exact Except.noConfusion he
    | cons a t =>
      refine ⟨by simp, ?_⟩
      simp only [readFiles, List.isEmpty_cons, Bool.false_eq_true, if_false] at he
      cases hprt : partitionFileInputs po stat (a :: t) with
      | error e =>
        rw [hprt] at he
        cases he
        rcases partition_error_shape po stat (a :: t) _ hprt with ⟨p, hp⟩ | ⟨p, hp⟩ <;>
          exact FileError.noConfusion hp
      | ok prt =>
        rw [hprt] at he
        have he' : (if (expandFilter prt).isEmpty = true then
            Except.error (FileError.noMatch prt.globPatterns prt.excludePatterns)
          else readFilesSized stat readF rel MAX_FILE_SIZE_BYTES (expandFilter prt))
            = Except.error (FileError.noMatch pats exs) := he
        by_cases hexp : (expandFilter prt).isEmpty = true
        · rw [if_pos hexp] at he'
          injection he' with h
          injection h with h1 h2
          exact ⟨prt, rfl, List.isEmpty_iff.mp hexp, h1.symm, h2.symm⟩
        · rw [if_neg hexp] at he'
          exact absurd he' (readFilesSized_no_noMatch _ _ _ _ _ _ _)
  · intro l prt hl hprt hexp
    cases l with
    | nil => exact absurd rfl hl
    | cons a t =>
      simp only [readFiles, List.isEmpty_cons, Bool.false_eq_true, if_false, hprt]
      show (if (expandFilter prt).isEmpty = true then
          Except.error (FileError.noMatch prt.globPatterns prt.excludePatterns)
        else readFilesSized stat readF rel MAX_FILE_SIZE_BYTES (expandFilter prt))
          = Except.error (FileError.noMatch prt.globPatterns prt.excludePatterns)
      have hcond : (expandFilter prt).isEmpty = true := by simp [hexp]
      rw [if_pos hcond]

/-- Witness for C10: a one-element input whose expansion filters everything
out raises the no-match error. -/
theorem readFiles_noMatch_spec_witness :
    readFiles
        { normalizeGlob := fun s => s, isDynamicPattern := fun _ => false,
          resolve := fun s => s }
        (fun _ => some { isFile := true, isDirectory := false, size := 3 })
        (fun _ => "data") (fun p => p) (fun _ => []) (some ["a.txt"])
      = Except.error (FileError.noMatch
          (Partitioned.globPatterns
            { globPatterns := [], excludePatterns := [], literalFiles := ["a.txt"],
              literalDirectories := [] })
          (Partitioned.excludePatterns
            { globPatterns := [], excludePatterns := [], literalFiles := ["a.txt"],
              literalDirectories := [] })) :=
  (readFiles_noMatch_spec
      { normalizeGlob := fun s => s, isDynamicPattern := fun _ => false,
        resolve := fun s => s }
      (fun _ => some { isFile := true, isDirectory := false, size := 3 })
      (fun _ => "data") (fun p => p) (fun _ => [])).2.2.2 ["a.txt"]
    { globPatterns := [], excludePatterns := [], literalFiles := ["a.txt"],
      literalDirectories := [] }
    (by decide) rfl rfl

/-! ### Decimal representation lemmas, for the suffix candidates -/

theorem toDigitsCore_append10 : ∀ (fuel n : Nat) (ds : List Char),
    Nat.toDigitsCore 10 fuel n ds = Nat.toDigitsCore 10 fuel n [] ++ ds := by
  intro fuel
  induction fuel with
  | zero => intro n ds; simp [Nat.toDigitsCore]
  | succ f ih =>
    intro n ds
    simp only [Nat.toDigitsCore]
    by_cases h : n / 10 = 0
    · simp [h]
    · rw [if_neg h, if_neg h, ih (n / 10) (Nat.digitChar (n % 10) :: ds),
        ih (n / 10) [Nat.digitChar (n % 10)]]
      simp

theorem toDigitsCore_eq_specDigits : ∀ (fuel n : Nat), n < fuel →
    Nat.toDigitsCore 10 fuel n [] = specDigits n := by
  intro fuel
  induction fuel with
  | zero => intro n h; omega
  | succ f ih =>
    intro n h
    simp only [Nat.toDigitsCore]
    by_cases h0 : n / 10 = 0
    · have hn : n < 10 := by
        by_contra hc
        have : 1 ≤ n / 10 := Nat.le_div_iff_mul_le (by omega) |>.mpr (by omega)
        omega
      rw [if_pos h0, specDigits, if_pos hn, Nat.mod_eq_of_lt hn]
    · have h10 : ¬ n < 10 := fun hlt => h0 (Nat.div_eq_of_lt hlt)
      have hd : n / 10 < n := Nat.div_lt_self (by omega) (by omega)
      rw [if_neg h0, toDigitsCore_append10 f (n / 10) [Nat.digitChar (n % 10)],
        ih (n / 10) (by omega)]
      conv_rhs => rw [specDigits]
      rw [if_neg h10]

theorem parseDigits_append (l : List Char) (c : Char) :
    parseDigits (l ++ [c]) = 10 * parseDigits l + digitVal c := by
  simp [parseDigits, List.foldl_append]

theorem digitVal_digitChar : ∀ d : Nat, d < 10 → digitVal (Nat.digitChar d) = d := by decide

theorem parseDigits_specDigits : ∀ n : Nat, parseDigits (specDigits n) = n := by
  intro n
  induction n using Nat.strong_induction_on with
  | _ n ih =>
    by_cases h : n < 10
    · rw [specDigits, if_pos h]
      simp [parseDigits, digitVal_digitChar n h]
    · rw [specDigits, if_neg h, parseDigits_append]
      have hd : n / 10 < n := Nat.div_lt_self (by omega) (by omega)
      rw [ih (n / 10) hd, digitVal_digitChar (n % 10) (Nat.mod_lt n (by omega))]
      omega

theorem natRepr_inj (m n : Nat) (h : Nat.repr m = Nat.repr n) : m = n := by
  have hdig : Nat.toDigits 10 m = Nat.toDigits 10 n := by
    have hd := congrArg String.data h
    simpa [Nat.repr, List.asString] using hd
  have hspec : specDigits m = specDigits n := by
    have e1 : Nat.toDigits 10 m = specDigits m :=
      toDigitsCore_eq_specDigits (m + 1) m (by omega)
    have e2 : Nat.toDigits 10 n = specDigits n :=
      toDigitsCore_eq_specDigits (n + 1) n (by omega)
    rw [← e1, ← e2, hdig]
  calc m = parseDigits (specDigits m) := (parseDigits_specDigits m).symm
    _ = parseDigits (specDigits n) := by rw [hspec]
    _ = n := parseDigits_specDigits n

theorem candidateName_inj (base : String) (i j : Nat)
    (h : candidateName base i = candidateName base j) : i = j := by
  unfold candidateName at h
  have hd := congrArg String.data h
  simp only [String.data_append] at hd
  have hrepr : (Nat.repr i).data = (Nat.repr j).data := List.append_cancel_left hd
  exact natRepr_inj i j (String.toList_inj.mp hrepr)

theorem candidateName_ne_base (base : String) (i : Nat) : candidateName base i ≠ base := by
  intro h
  have hl := congrArg String.length h
  simp only [candidateName, String.length_append] at hl
  have h1 : ("-" : String).length = 1 := rfl
  rw [h1] at hl
  omega

/-! ### Unique-session-id lemmas -/

theorem uniqueLoop_step (existing : List String) (base candidate : String)
    (suffix fuel : Nat) :
    uniqueLoop existing base candidate suffix (fuel + 1)
      = if candidate ∈ existing then
          uniqueLoop existing base (candidateName base suffix) (suffix + 1) fuel
        else candidate := rfl

theorem uniqueLoop_reaches (existing : List String) (base : String) (k : Nat)
    (hfree : candidateName base k ∉ existing) :
    ∀ fuel j, 2 ≤ j → j ≤ k → k - j < fuel →
      (∀ i, j ≤ i → i < k → candidateName base i ∈ existing) →
      uniqueLoop existing base (candidateName base j) (j + 1) fuel
        = candidateName base k := by
  intro fuel
  induction fuel with
  | zero => intro j h2 hjk hfuel hbusy; omega
  | succ f ih =>
    intro j h2 hjk hfuel hbusy
    rw [uniqueLoop_step]
    by_cases hjk' : j = k
    · subst hjk'
      rw [if_neg hfree]
    · have hjlt : j < k := by omega
      rw [if_pos (hbusy j (le_refl j) hjlt)]
      exact ih (j + 1) (by omega) (by omega) (by omega)
        (fun i h1 h2' => hbusy i (by omega) h2')

theorem busy_bound (existing : List String) (base : String) (k : Nat) (h2 : 2 ≤ k)
    (hbase : base ∈ existing)
    (hbusy : ∀ i, 2 ≤ i → i < k → candidateName base i ∈ existing) :
    k ≤ existing.length + 1 := by
  have hnodup : (base :: ((List.range (k - 2)).map fun t => candidateName base (t + 2))).Nodup := by
    rw [List.nodup_cons]
    constructor
    · intro hmem
      rcases List.mem_map.mp hmem with ⟨t, _, hty⟩
      exact candidateName_ne_base base (t + 2) hty
    · refine List.Nodup.map ?_ (List.nodup_range (k - 2))
      intro a b hab
      have := candidateName_inj base (a + 2) (b + 2) hab
      omega
  have hsub : (base :: ((List.range (k - 2)).map fun t => candidateName base (t + 2)))
      ⊆ existing := by
    intro x hx
    rcases List.mem_cons.mp hx with rfl | hx
    · exact hbase
    · rcases List.mem_map.mp hx with ⟨t, ht, rfl⟩
      have htk := List.mem_range.mp ht
      exact hbusy (t + 2) (by omega) (by omega)
  have hlen := (List.subperm_of_subset hnodup hsub).length_le
  simp only [List.length_cons, List.length_map, List.length_range] at hlen
  omega

/-- C6: session creation returns the base slug when its directory is free and
otherwise probes base-2, base-3, and so on in increasing order, returning the
first candidate whose directory does not exist. -/
theorem ensureUniqueSessionId_spec (existing : List String) (base : String) :
    (base ∉ existing → ensureUniqueSessionId existing base = base)
    ∧ (∀ k, 2 ≤ k → base ∈ existing → candidateName base k ∉ existing →
        (∀ i, 2 ≤ i → i < k → candidateName base i ∈ existing) →
        ensureUniqueSessionId existing base = candidateName base k) := by
  have hdef : ensureUniqueSessionId existing base
      = uniqueLoop existing base base 2 ((existing.length + 1) + 1) := rfl
  constructor
  · intro hfree
    rw [hdef, uniqueLoop_step, if_neg hfree]
  · intro k h2 hbase hfree hbusy
    have hk : k ≤ existing.length + 1 := busy_bound existing base k h2 hbase hbusy
    rw [hdef, uniqueLoop_step, if_pos hbase]
    exact uniqueLoop_reaches existing base k hfree (existing.length + 1) 2 (le_refl 2) h2 (by omega)
      (fun i h1 h2' => hbusy i h1 h2')

/-- Witness for C6: with no directory the base name is kept; with the base
directory taken the first session gets the dash-two suffix and with both
taken the next gets dash-three. -/
theorem ensureUniqueSessionId_spec_witness :
    ("alpha" ∉ ([] : List String) ∧ ensureUniqueSessionId [] "alpha" = "alpha")
    ∧ (candidateName "alpha" 2 ∉ ["alpha"]
        ∧ ensureUniqueSessionId ["alpha"] "alpha" = candidateName "alpha" 2)
    ∧ ensureUniqueSessionId ["alpha", "alpha-2"] "alpha" = candidateName "alpha" 3 :=
  ⟨⟨by decide, (ensureUniqueSessionId_spec [] "alpha").1 (by decide)⟩,
   ⟨by decide, (ensureUniqueSessionId_spec ["alpha"] "alpha").2 2 (by decide) (by decide)
      (by decide) (fun i h1 h2 => absurd (Nat.lt_of_le_of_lt h1 h2) (Nat.lt_irrefl 2))⟩,
   (ensureUniqueSessionId_spec ["alpha", "alpha-2"] "alpha").2 3 (by decide) (by decide)
      (by decide)
      (fun i h1 h2 => by
        have hi : i = 2 := by omega
        rw [hi]
        decide)⟩

end Oracle
